import Mathlib

/-!
Shallow embedding of the `bank` crate's core (src/bank/types.rs,
src/bank/transaction.rs, src/bank/account.rs, src/bank/state.rs).

Rust's `HashMap` and `HashSet` are modelled as association lists /
lists of keys; `&mut self` methods returning `Result<(), E>` are
modelled as functions `State → State × Option E`, where every
`return Err(e)` point of the source yields the pair of the receiver
as mutated so far and `some e`.
-/

/-- `ClientId` from types.rs (`u16`); only compared for equality. -/
abbrev ClientId := Nat

/-- `TransactionId` from types.rs (`u32`); only compared for equality. -/
abbrev TransactionId := Nat

/-- `Money` from types.rs (`i64` fixed-point amount). -/
abbrev Money := Int

/-- `TransactionType` from transaction.rs. -/
inductive TransactionType where
  | Deposit
  | Withdrawal
  | Dispute
  | Resolve
  | Chargeback
  deriving DecidableEq, Repr

/-- `Transaction` from transaction.rs. -/
structure Transaction where
  tx_type : TransactionType
  client_id : ClientId
  transaction_id : TransactionId
  amount : Option Money
  deriving DecidableEq, Repr

/-- `TransactionError` from account.rs. -/
inductive TransactionError where
  | InsufficientFunds
  | AccountLocked
  | InvalidTransaction
  | AlreadyInDispute
  | NotInDispute
  | NotForThisAccount
  | TransactionDoesNotExist
  deriving DecidableEq, Repr

/-- `HashMap::get` on the transactions map, modelled on an association list. -/
def lookupTx : List (TransactionId × Transaction) → TransactionId → Option Transaction
  | [], _ => none
  | (k, v) :: rest, tid => if k = tid then some v else lookupTx rest tid

/-- `HashMap::insert` on the transactions map: overwrite the binding if the
key is present, otherwise add a new binding. -/
def insertTx : List (TransactionId × Transaction) → TransactionId → Transaction →
    List (TransactionId × Transaction)
  | [], k, v => [(k, v)]
  | (k', v') :: rest, k, v =>
    if k' = k then (k, v) :: rest else (k', v') :: insertTx rest k v

/-- `Account` from account.rs. -/
structure Account where
  client_id : ClientId
  available : Money
  held : Money
  total : Money
  locked : Bool
  transactions : List (TransactionId × Transaction)
  in_dispute : List TransactionId
  deriving DecidableEq, Repr

/-- `Account::new`: fresh zero-balance unlocked account (the `Default`
derive zero-initialises every field). -/
def Account.new (client_id : ClientId) : Account :=
  { client_id := client_id
    available := 0
    held := 0
    total := 0
    locked := false
    transactions := []
    in_dispute := [] }

/-- `Account::deposit`. -/
def Account.deposit (a : Account) (amount : Money) : Account :=
  { a with available := a.available + amount, total := a.total + amount }

/-- `Account::withdraw`. -/
def Account.withdraw (a : Account) (amount : Money) :
    Account × Option TransactionError :=
  if a.available ≥ amount then
    ({ a with available := a.available - amount, total := a.total - amount }, none)
  else
    (a, some .InsufficientFunds)

/-- `Account::dispute`. -/
def Account.dispute (a : Account) (transaction_id : TransactionId) :
    Account × Option TransactionError :=
  if transaction_id ∈ a.in_dispute then
    (a, some .AlreadyInDispute)
  else
    match lookupTx a.transactions transaction_id with
    | some tx =>
      match tx.tx_type with
      | .Deposit =>
        ({ a with
            available := a.available - tx.amount.getD 0
            held := a.held + tx.amount.getD 0
            in_dispute := transaction_id :: a.in_dispute }, none)
      | .Withdrawal =>
        ({ a with
            held := a.held + tx.amount.getD 0
            in_dispute := transaction_id :: a.in_dispute }, none)
      | _ => (a, some .InvalidTransaction)
    | none => (a, some .TransactionDoesNotExist)

/-- `Account::resolve`. -/
def Account.resolve (a : Account) (transaction_id : TransactionId) :
    Account × Option TransactionError :=
  if transaction_id ∈ a.in_dispute then
    match lookupTx a.transactions transaction_id with
    | some tx =>
      match tx.tx_type with
      | .Deposit =>
        ({ a with
            available := a.available + tx.amount.getD 0
            held := a.held - tx.amount.getD 0
            in_dispute := a.in_dispute.erase transaction_id }, none)
      | .Withdrawal =>
        ({ a with
            held := a.held - tx.amount.getD 0
            in_dispute := a.in_dispute.erase transaction_id }, none)
      | _ => (a, some .InvalidTransaction)
    | none => (a, some .TransactionDoesNotExist)
  else
    (a, some .NotInDispute)

/-- `Account::chargeback`. -/
def Account.chargeback (a : Account) (transaction_id : TransactionId) :
    Account × Option TransactionError :=
  if transaction_id ∈ a.in_dispute then
    match lookupTx a.transactions transaction_id with
    | some tx =>
      match tx.tx_type with
      | .Deposit =>
        ({ a with
            held := a.held - tx.amount.getD 0
            total := a.total - tx.amount.getD 0
            locked := true
            in_dispute := a.in_dispute.erase transaction_id }, none)
      | .Withdrawal =>
        ({ a with
            available := a.available + tx.amount.getD 0
            held := a.held - tx.amount.getD 0
            locked := true
            in_dispute := a.in_dispute.erase transaction_id }, none)
      | _ => (a, some .InvalidTransaction)
    | none => (a, some .TransactionDoesNotExist)
  else
    (a, some .NotInDispute)

/-- `Account::process_transaction`. -/
def Account.process_transaction (a : Account) (transaction : Transaction) :
    Account × Option TransactionError :=
  if transaction.client_id ≠ a.client_id then
    (a, some .NotForThisAccount)
  else if a.locked then
    (a, some .AccountLocked)
  else
    match transaction.tx_type with
    | .Deposit =>
      match transaction.amount with
      | none => (a, some .InvalidTransaction)
      | some amount =>
        let a1 := a.deposit amount
        ({ a1 with
            transactions :=
              insertTx a1.transactions transaction.transaction_id transaction },
          none)
    | .Withdrawal =>
      match transaction.amount with
      | none => (a, some .InvalidTransaction)
      | some amount =>
        match a.withdraw amount with
        | (a1, none) =>
          ({ a1 with
              transactions :=
                insertTx a1.transactions transaction.transaction_id transaction },
            none)
        | (a1, some e) => (a1, some e)
    | .Dispute => a.dispute transaction.transaction_id
    | .Resolve => a.resolve transaction.transaction_id
    | .Chargeback => a.chargeback transaction.transaction_id

/-- One step of account processing, keeping the (possibly unchanged)
account and discarding the error value. -/
def stepA (a : Account) (t : Transaction) : Account :=
  (a.process_transaction t).1

/-- Repeated account processing of a list of records, in order. -/
def runA (a : Account) (ts : List Transaction) : Account :=
  ts.foldl stepA a

/-- `HashMap::get` on the accounts map, modelled on an association list. -/
def lookupAcc : List (ClientId × Account) → ClientId → Option Account
  | [], _ => none
  | (k, v) :: rest, c => if k = c then some v else lookupAcc rest c

/-- `HashMap` write on the accounts map: overwrite if present, else add. -/
def insertAcc : List (ClientId × Account) → ClientId → Account →
    List (ClientId × Account)
  | [], c, v => [(c, v)]
  | (k, v') :: rest, c, v =>
    if k = c then (c, v) :: rest else (k, v') :: insertAcc rest c v

/-- `State` from state.rs (the channel receiver is modelled by passing the
list of records to `State.run` directly). -/
structure State where
  accounts : List (ClientId × Account)
  deriving DecidableEq, Repr

/-- `State::process_transaction`: `get_or_create_account` followed by
`Account::process_transaction`; the account slot — freshly created when the
client was unknown — always ends up holding the processed account. -/
def State.process_transaction (s : State) (transaction : Transaction) :
    State × Option TransactionError :=
  let account :=
    (lookupAcc s.accounts transaction.client_id).getD
      (Account.new transaction.client_id)
  let r := account.process_transaction transaction
  (⟨insertAcc s.accounts transaction.client_id r.1⟩, r.2)

/-- `State::run`: drain the feed one record at a time, reporting (that is,
discarding) any per-record error and continuing with the next record. -/
def State.run (s : State) : List Transaction → State
  | [] => s
  | t :: rest => State.run (s.process_transaction t).1 rest

/-- The per-transaction amount an account's ledger currently records for
`tid` (`0` when `tid` is not stored); disputes hold/release exactly this. -/
def txAmt (m : List (TransactionId × Transaction)) (tid : TransactionId) : Money :=
  match lookupTx m tid with
  | some tx => tx.amount.getD 0
  | none => 0

/-- Sum of the currently recorded amounts of a list of transaction ids. -/
def heldSum (m : List (TransactionId × Transaction)) : List TransactionId → Money
  | [] => 0
  | tid :: rest => txAmt m tid + heldSum m rest

/-- A record is benign for account `a`: non-negative amount, a
Deposit/Withdrawal does not reuse a stored transaction id, and a Dispute
does not reference a stored Withdrawal. -/
def GoodRec (a : Account) (t : Transaction) : Prop :=
  0 ≤ t.amount.getD 0 ∧
  ((t.tx_type = .Deposit ∨ t.tx_type = .Withdrawal) →
    lookupTx a.transactions t.transaction_id = none) ∧
  (t.tx_type = .Dispute →
    Option.all (fun tx => decide (tx.tx_type ≠ .Withdrawal))
      (lookupTx a.transactions t.transaction_id) = true)

/-- Every record of the sequence is benign for the account state at the
moment it is processed. -/
def SafeSeq (a : Account) : List Transaction → Prop
  | [] => True
  | t :: rest => GoodRec a t ∧ SafeSeq (stepA a t) rest

/-- The inductive invariant behind non-negativity of `held`: all stored
amounts are non-negative, disputed ids are stored, and `held` equals the sum
of the recorded amounts of the disputed ids. -/
def HeldInv (a : Account) : Prop :=
  (∀ k tx, lookupTx a.transactions k = some tx → 0 ≤ tx.amount.getD 0) ∧
  (∀ tid ∈ a.in_dispute, (lookupTx a.transactions tid).isSome) ∧
  a.held = heldSum a.transactions a.in_dispute

/-- Well-formedness of an account's ledger/dispute state: every disputed id
is stored, and every stored record is a Deposit or Withdrawal with an
amount present. -/
def AccountWF (a : Account) : Prop :=
  (∀ tid ∈ a.in_dispute, (lookupTx a.transactions tid).isSome) ∧
  (∀ k tx, lookupTx a.transactions k = some tx →
    (tx.tx_type = .Deposit ∨ tx.tx_type = .Withdrawal) ∧ tx.amount.isSome)

/-- A stored withdrawal record used as a concrete witness input. -/
def wTx : Transaction := ⟨.Withdrawal, 1, 2, some 1000⟩

/-- An account holding the stored withdrawal `wTx`, nothing disputed. -/
def wAcct : Account := ⟨1, 1000, 0, 1000, false, [(2, wTx)], []⟩

/-- A stored deposit record used as a concrete witness input. -/
def dTx : Transaction := ⟨.Deposit, 1, 1, some 1000⟩

/-- An account holding the stored deposit `dTx`, nothing disputed. -/
def dAcct : Account := ⟨1, 1000, 0, 1000, false, [(1, dTx)], []⟩

/-- An account holding the stored deposit `dTx` with that deposit in
dispute. -/
def dAcctDisputed : Account := ⟨1, 0, 1000, 1000, false, [(1, dTx)], [1]⟩

/-- A locked account used as a concrete witness input. -/
def lockedAcct : Account := ⟨1, 5, 0, 5, true, [], []⟩

/-- A deposit record addressed to client 1, used against `lockedAcct`. -/
def depRec : Transaction := ⟨.Deposit, 1, 9, some 3⟩

/-- Deposit-then-dispute feed used as a concrete witness input. -/
def c8seq : List Transaction := [⟨.Deposit, 1, 1, some 5⟩, ⟨.Dispute, 1, 1, none⟩]

/-- Single-deposit feed used as a concrete witness input. -/
def c5seq : List Transaction := [⟨.Deposit, 1, 1, some 5⟩]

/-- A dispute record for an id no account has seen. -/
def c9rec : Transaction := ⟨.Dispute, 1, 1, none⟩

/-- Every branch of `Account.process_transaction` either succeeds or returns
the receiver untouched: each `return Err` of the source fires before any
mutation. -/
theorem process_transaction_cases (a : Account) (t : Transaction) :
    (a.process_transaction t).2 = none ∨ (a.process_transaction t).1 = a := by
  unfold Account.process_transaction Account.dispute
    Account.resolve Account.chargeback
  repeat' split
  all_goals first
    | exact Or.inl rfl
    | exact Or.inr rfl
    | (rename_i heq
       unfold Account.withdraw at heq
       split at heq <;> simp_all)

/-- Unfolding lemma for `runA` on a cons cell. -/
theorem runA_cons (a : Account) (t : Transaction) (ts : List Transaction) :
    runA a (t :: ts) = runA (stepA a t) ts := rfl

/-- Reading the transactions map after a write: the written key returns the
new record, all other keys are unaffected. -/
theorem lookupTx_insertTx (m : List (TransactionId × Transaction))
    (k k' : TransactionId) (v : Transaction) :
    lookupTx (insertTx m k v) k' = if k = k' then some v else lookupTx m k' := by
  induction m with
  | nil => simp [insertTx, lookupTx]
  | cons p rest ih =>
    obtain ⟨k0, v0⟩ := p
    by_cases h : k0 = k
    · subst h
      by_cases h' : k0 = k' <;> simp [insertTx, lookupTx, h']
    · by_cases h' : k0 = k'
      · subst h'
        have hk : ¬(k = k0) := fun hh => h hh.symm
        simp [insertTx, lookupTx, h, hk]
      · simp [insertTx, lookupTx, h, h', ih]

/-- Writing back the very account a key already maps to leaves the accounts
map unchanged. -/
theorem insertAcc_lookup_some (l : List (ClientId × Account)) (c : ClientId)
    (v : Account) (h : lookupAcc l c = some v) : insertAcc l c v = l := by
  induction l with
  | nil => simp [lookupAcc] at h
  | cons p rest ih =>
    obtain ⟨k, v0⟩ := p
    by_cases hk : k = c
    · subst hk
      simp [lookupAcc] at h
      simp [insertAcc, h]
    · simp [lookupAcc, hk] at h
      simp [insertAcc, hk, ih h]

/-- Writing an unknown key appends a fresh binding to the accounts map. -/
theorem insertAcc_lookup_none (l : List (ClientId × Account)) (c : ClientId)
    (v : Account) (h : lookupAcc l c = none) : insertAcc l c v = l ++ [(c, v)] := by
  induction l with
  | nil => simp [insertAcc]
  | cons p rest ih =>
    obtain ⟨k, v0⟩ := p
    by_cases hk : k = c
    · simp [lookupAcc, hk] at h
    · simp [lookupAcc, hk] at h
      simp [insertAcc, hk, ih h]

/-- The drain loop of `State::run` is the left fold of the per-record step. -/
theorem state_run_eq_foldl (s : State) (feed : List Transaction) :
    s.run feed = feed.foldl (fun s' t => (s'.process_transaction t).1) s := by
  induction feed generalizing s with
  | nil => rfl
  | cons t rest ih => simpa [State.run] using ih (s.process_transaction t).1

/-- One Deposit/Withdrawal step preserves `total = available + held` and
`held = 0`. -/
theorem inv7_step (a : Account) (t : Transaction)
    (hdw : t.tx_type = .Deposit ∨ t.tx_type = .Withdrawal)
    (h1 : a.total = a.available + a.held) (h2 : a.held = 0) :
    (stepA a t).total = (stepA a t).available + (stepA a t).held ∧
    (stepA a t).held = 0 := by
  obtain ⟨ty, cid, tid, amt⟩ := t
  unfold stepA Account.process_transaction Account.deposit Account.withdraw
  rcases hdw with hty | hty <;> cases hty <;> repeat' split
  all_goals simp_all
  all_goals rename_i heq
  all_goals split at heq
  all_goals simp_all
  all_goals (subst heq; simp)

/-- Any Deposit/Withdrawal-only feed preserves `total = available + held`
and `held = 0`. -/
theorem runA_inv7 (a : Account) (ts : List Transaction)
    (hdw : ∀ t ∈ ts, t.tx_type = .Deposit ∨ t.tx_type = .Withdrawal)
    (h1 : a.total = a.available + a.held) (h2 : a.held = 0) :
    (runA a ts).total = (runA a ts).available + (runA a ts).held ∧
    (runA a ts).held = 0 := by
  induction ts generalizing a with
  | nil => exact ⟨h1, h2⟩
  | cons t rest ih =>
    rw [runA_cons]
    have hd := hdw t (List.mem_cons_self _ _)
    have hstep := inv7_step a t hd h1 h2
    exact ih (stepA a t) (fun u hu => hdw u (List.mem_cons_of_mem _ hu)) hstep.1 hstep.2

theorem accountWF_insert (a : Account) (t : Transaction) (A : Money)
    (h : AccountWF a)
    (hty : t.tx_type = .Deposit ∨ t.tx_type = .Withdrawal)
    (hamt : t.amount = some A)
    (av hd tot : Money) (lk : Bool) :
    AccountWF
      { client_id := a.client_id, available := av, held := hd, total := tot,
        locked := lk,
        transactions := insertTx a.transactions t.transaction_id t,
        in_dispute := a.in_dispute } := by
  obtain ⟨h1, h2⟩ := h
  constructor
  · intro tid hmem
    rw [lookupTx_insertTx]
    by_cases he : t.transaction_id = tid
    · simp [he]
    · simpa [he] using h1 tid hmem
  · intro k tx hlook
    rw [lookupTx_insertTx] at hlook
    by_cases he : t.transaction_id = k
    · simp [he] at hlook
      subst hlook
      exact ⟨hty, by simp [hamt]⟩
    · simp [he] at hlook
      exact h2 k tx hlook

theorem accountWF_step (a : Account) (t : Transaction) (h : AccountWF a) :
    AccountWF (stepA a t) := by
  obtain ⟨ty, cid, tid, amt⟩ := t
  by_cases hc : cid = a.client_id
  case neg =>
    simpa [stepA, Account.process_transaction, hc] using h
  case pos =>
  by_cases hl : a.locked
  case pos =>
    simpa [stepA, Account.process_transaction, hc, hl] using h
  case neg =>
  cases ty
  case Deposit =>
    cases amt with
    | none => simpa [stepA, Account.process_transaction, hc, hl] using h
    | some A =>
      have := accountWF_insert a ⟨.Deposit, cid, tid, some A⟩ A h (Or.inl rfl) rfl
        (a.available + A) a.held (a.total + A) a.locked
      simpa [stepA, Account.process_transaction, Account.deposit, hc, hl] using this
  case Withdrawal =>
    cases amt with
    | none => simpa [stepA, Account.process_transaction, hc, hl] using h
    | some A =>
      by_cases hge : A ≤ a.available
      · have := accountWF_insert a ⟨.Withdrawal, cid, tid, some A⟩ A h (Or.inr rfl) rfl
          (a.available - A) a.held (a.total - A) a.locked
        simpa [stepA, Account.process_transaction, Account.withdraw, hc, hl,
          if_pos hge] using this
      · simpa [stepA, Account.process_transaction, Account.withdraw, hc, hl,
          if_neg hge] using h
  case Dispute =>
    by_cases hmem : tid ∈ a.in_dispute
    · simpa [stepA, Account.process_transaction, Account.dispute, hc, hl, hmem] using h
    · rcases hlook : lookupTx a.transactions tid with _ | tx
      · simpa [stepA, Account.process_transaction, Account.dispute, hc, hl, hmem,
          hlook] using h
      · rcases (h.2 tid tx hlook).1 with hty | hty
        · have hstep : stepA a ⟨.Dispute, cid, tid, amt⟩ =
              { a with available := a.available - tx.amount.getD 0,
                       held := a.held + tx.amount.getD 0,
                       in_dispute := tid :: a.in_dispute } := by
            simp [stepA, Account.process_transaction, Account.dispute, hc, hl,
              hmem, hlook, hty]
          rw [hstep]
          refine ⟨?_, ?_⟩
          · intro tid' hmem'
            simp only []
            rcases List.mem_cons.mp hmem' with h' | h'
            · subst h'; simp [hlook]
            · exact h.1 tid' h'
          · intro k tx' hlook'
            exact h.2 k tx' hlook'
        · have hstep : stepA a ⟨.Dispute, cid, tid, amt⟩ =
              { a with held := a.held + tx.amount.getD 0,
                       in_dispute := tid :: a.in_dispute } := by
            simp [stepA, Account.process_transaction, Account.dispute, hc, hl,
              hmem, hlook, hty]
          rw [hstep]
          refine ⟨?_, ?_⟩
          · intro tid' hmem'
            rcases List.mem_cons.mp hmem' with h' | h'
            · subst h'; simp [hlook]
            · exact h.1 tid' h'
          · intro k tx' hlook'
            exact h.2 k tx' hlook'
  case Resolve =>
    by_cases hmem : tid ∈ a.in_dispute
    · rcases hlook : lookupTx a.transactions tid with _ | tx
      · simpa [stepA, Account.process_transaction, Account.resolve, hc, hl, hmem,
          hlook] using h
      · rcases (h.2 tid tx hlook).1 with hty | hty
        · have hstep : stepA a ⟨.Resolve, cid, tid, amt⟩ =
              { a with available := a.available + tx.amount.getD 0,
                       held := a.held - tx.amount.getD 0,
                       in_dispute := a.in_dispute.erase tid } := by
            simp [stepA, Account.process_transaction, Account.resolve, hc, hl,
              hmem, hlook, hty]
          rw [hstep]
          refine ⟨?_, ?_⟩
          · intro tid' hmem'
            exact h.1 tid' (List.mem_of_mem_erase hmem')
          · intro k tx' hlook'
            exact h.2 k tx' hlook'
        · have hstep : stepA a ⟨.Resolve, cid, tid, amt⟩ =
              { a with held := a.held - tx.amount.getD 0,
                       in_dispute := a.in_dispute.erase tid } := by
            simp [stepA, Account.process_transaction, Account.resolve, hc, hl,
              hmem, hlook, hty]
          rw [hstep]
          refine ⟨?_, ?_⟩
          · intro tid' hmem'
            exact h.1 tid' (List.mem_of_mem_erase hmem')
          · intro k tx' hlook'
            exact h.2 k tx' hlook'
    · simpa [stepA, Account.process_transaction, Account.resolve, hc, hl, hmem]
        using h
  case Chargeback =>
    by_cases hmem : tid ∈ a.in_dispute
    · rcases hlook : lookupTx a.transactions tid with _ | tx
      · simpa [stepA, Account.process_transaction, Account.chargeback, hc, hl, hmem,
          hlook] using h
      · rcases (h.2 tid tx hlook).1 with hty | hty
        · have hstep : stepA a ⟨.Chargeback, cid, tid, amt⟩ =
              { a with held := a.held - tx.amount.getD 0,
                       total := a.total - tx.amount.getD 0,
                       locked := true,
                       in_dispute := a.in_dispute.erase tid } := by
            simp [stepA, Account.process_transaction, Account.chargeback, hc, hl,
              hmem, hlook, hty]
          rw [hstep]
          refine ⟨?_, ?_⟩
          · intro tid' hmem'
            exact h.1 tid' (List.mem_of_mem_erase hmem')
          · intro k tx' hlook'
            exact h.2 k tx' hlook'
        · have hstep : stepA a ⟨.Chargeback, cid, tid, amt⟩ =
              { a with available := a.available + tx.amount.getD 0,
                       held := a.held - tx.amount.getD 0,
                       locked := true,
                       in_dispute := a.in_dispute.erase tid } := by
            simp [stepA, Account.process_transaction, Account.chargeback, hc, hl,
              hmem, hlook, hty]
          rw [hstep]
          refine ⟨?_, ?_⟩
          · intro tid' hmem'
            exact h.1 tid' (List.mem_of_mem_erase hmem')
          · intro k tx' hlook'
            exact h.2 k tx' hlook'
    · simpa [stepA, Account.process_transaction, Account.chargeback, hc, hl, hmem]
        using h

theorem runA_wf (a : Account) (ts : List Transaction) (h : AccountWF a) :
    AccountWF (runA a ts) := by
  induction ts generalizing a with
  | nil => exact h
  | cons t rest ih => rw [runA_cons]; exact ih _ (accountWF_step a t h)

theorem accountWF_new (c : ClientId) : AccountWF (Account.new c) := by
  constructor
  · intro tid hmem; simp [Account.new] at hmem
  · intro k tx hlook; simp [Account.new, lookupTx] at hlook

theorem resolve_no_dne (a : Account) (tid : TransactionId) (h : AccountWF a)
    (hmem : tid ∈ a.in_dispute) :
    (a.resolve tid).2 ≠ some .TransactionDoesNotExist := by
  rcases hlook : lookupTx a.transactions tid with _ | tx
  · have := h.1 tid hmem
    simp [hlook] at this
  · rcases (h.2 tid tx hlook).1 with hty | hty <;>
      simp [Account.resolve, hmem, hlook, hty]

theorem chargeback_no_dne (a : Account) (tid : TransactionId) (h : AccountWF a)
    (hmem : tid ∈ a.in_dispute) :
    (a.chargeback tid).2 ≠ some .TransactionDoesNotExist := by
  rcases hlook : lookupTx a.transactions tid with _ | tx
  · have := h.1 tid hmem
    simp [hlook] at this
  · rcases (h.2 tid tx hlook).1 with hty | hty <;>
      simp [Account.chargeback, hmem, hlook, hty]

theorem dispute_no_invalid (a : Account) (tid : TransactionId) (h : AccountWF a) :
    (a.dispute tid).2 ≠ some .InvalidTransaction := by
  by_cases hmem : tid ∈ a.in_dispute
  · simp [Account.dispute, hmem]
  · rcases hlook : lookupTx a.transactions tid with _ | tx
    · simp [Account.dispute, hmem, hlook]
    · rcases (h.2 tid tx hlook).1 with hty | hty <;>
        simp [Account.dispute, hmem, hlook, hty]

theorem resolve_no_invalid (a : Account) (tid : TransactionId) (h : AccountWF a) :
    (a.resolve tid).2 ≠ some .InvalidTransaction := by
  by_cases hmem : tid ∈ a.in_dispute
  · rcases hlook : lookupTx a.transactions tid with _ | tx
    · simp [Account.resolve, hmem, hlook]
    · rcases (h.2 tid tx hlook).1 with hty | hty <;>
        simp [Account.resolve, hmem, hlook, hty]
  · simp [Account.resolve, hmem]

theorem chargeback_no_invalid (a : Account) (tid : TransactionId) (h : AccountWF a) :
    (a.chargeback tid).2 ≠ some .InvalidTransaction := by
  by_cases hmem : tid ∈ a.in_dispute
  · rcases hlook : lookupTx a.transactions tid with _ | tx
    · simp [Account.chargeback, hmem, hlook]
    · rcases (h.2 tid tx hlook).1 with hty | hty <;>
        simp [Account.chargeback, hmem, hlook, hty]
  · simp [Account.chargeback, hmem]

theorem txAmt_nonneg (m : List (TransactionId × Transaction)) (tid : TransactionId)
    (h : ∀ k tx, lookupTx m k = some tx → 0 ≤ tx.amount.getD 0) :
    0 ≤ txAmt m tid := by
  unfold txAmt
  rcases hlook : lookupTx m tid with _ | tx
  · simp
  · exact h tid tx hlook

theorem heldSum_nonneg (m : List (TransactionId × Transaction))
    (l : List TransactionId)
    (h : ∀ k tx, lookupTx m k = some tx → 0 ≤ tx.amount.getD 0) :
    0 ≤ heldSum m l := by
  induction l with
  | nil => simp [heldSum]
  | cons tid rest ih =>
    have := txAmt_nonneg m tid h
    simp only [heldSum]
    linarith

theorem heldSum_erase (m : List (TransactionId × Transaction))
    (l : List TransactionId) (tid : TransactionId) (hmem : tid ∈ l) :
    heldSum m (l.erase tid) = heldSum m l - txAmt m tid := by
  induction l with
  | nil => cases hmem
  | cons t0 rest ih =>
    by_cases h0 : t0 = tid
    · subst h0
      simp [List.erase_cons_head, heldSum]
    · have hmem' : tid ∈ rest := by
        rcases List.mem_cons.mp hmem with h | h
        · exact absurd h.symm h0
        · exact h
      have hbeq : ¬(t0 == tid) = true := by simpa using h0
      rw [List.erase_cons_tail hbeq]
      simp only [heldSum, ih hmem']
      ring

theorem heldSum_congr (m m' : List (TransactionId × Transaction))
    (l : List TransactionId)
    (h : ∀ tid ∈ l, txAmt m' tid = txAmt m tid) :
    heldSum m' l = heldSum m l := by
  induction l with
  | nil => rfl
  | cons t0 rest ih =>
    simp only [heldSum]
    rw [h t0 (List.mem_cons_self _ _), ih (fun u hu => h u (List.mem_cons_of_mem _ hu))]

theorem txAmt_insertTx (m : List (TransactionId × Transaction))
    (k tid : TransactionId) (v : Transaction) :
    txAmt (insertTx m k v) tid = if k = tid then v.amount.getD 0 else txAmt m tid := by
  unfold txAmt
  rw [lookupTx_insertTx]
  by_cases h : k = tid <;> simp [h]

theorem heldInv_insert (a : Account) (t : Transaction) (A : Money)
    (hinv : HeldInv a) (hamt : t.amount = some A) (hA : 0 ≤ A)
    (hfresh : lookupTx a.transactions t.transaction_id = none)
    (av tot : Money) :
    HeldInv
      { client_id := a.client_id, available := av, held := a.held, total := tot,
        locked := a.locked,
        transactions := insertTx a.transactions t.transaction_id t,
        in_dispute := a.in_dispute } := by
  obtain ⟨hnn, hmemS, hsum⟩ := hinv
  refine ⟨?_, ?_, ?_⟩
  · intro k tx hlook
    simp only [] at hlook
    rw [lookupTx_insertTx] at hlook
    by_cases he : t.transaction_id = k
    · simp [he] at hlook
      subst hlook
      simp [hamt]
      exact hA
    · simp [he] at hlook
      exact hnn k tx hlook
  · intro tid' hmem'
    simp only [] at hmem' ⊢
    rw [lookupTx_insertTx]
    by_cases he : t.transaction_id = tid'
    · simp [he]
    · simpa [he] using hmemS tid' hmem'
  · simp only []
    rw [heldSum_congr]
    · exact hsum
    · intro u hu
      rw [txAmt_insertTx]
      by_cases he : t.transaction_id = u
      · exfalso
        have := hmemS u hu
        rw [← he, hfresh] at this
        simp at this
      · simp [he]

theorem heldInv_step (a : Account) (t : Transaction) (hinv : HeldInv a)
    (hgood : GoodRec a t) : HeldInv (stepA a t) := by
  obtain ⟨ty, cid, tid, amt⟩ := t
  by_cases hc : cid = a.client_id
  case neg => simpa [stepA, Account.process_transaction, hc] using hinv
  case pos =>
  by_cases hl : a.locked
  case pos => simpa [stepA, Account.process_transaction, hc, hl] using hinv
  case neg =>
  cases ty
  case Deposit =>
    cases amt with
    | none => simpa [stepA, Account.process_transaction, hc, hl] using hinv
    | some A =>
      have hfresh : lookupTx a.transactions tid = none := hgood.2.1 (Or.inl rfl)
      have hA : (0 : Money) ≤ A := hgood.1
      have hstep : stepA a ⟨.Deposit, cid, tid, some A⟩ =
          { client_id := a.client_id, available := a.available + A, held := a.held,
            total := a.total + A, locked := a.locked,
            transactions := insertTx a.transactions tid ⟨.Deposit, cid, tid, some A⟩,
            in_dispute := a.in_dispute } := by
        simp [stepA, Account.process_transaction, Account.deposit, hc, hl]
      rw [hstep]
      exact heldInv_insert a ⟨.Deposit, cid, tid, some A⟩ A hinv rfl hA hfresh _ _
  case Withdrawal =>
    cases amt with
    | none => simpa [stepA, Account.process_transaction, hc, hl] using hinv
    | some A =>
      by_cases hge : A ≤ a.available
      · have hfresh : lookupTx a.transactions tid = none := hgood.2.1 (Or.inr rfl)
        have hA : (0 : Money) ≤ A := hgood.1
        have hstep : stepA a ⟨.Withdrawal, cid, tid, some A⟩ =
            { client_id := a.client_id, available := a.available - A, held := a.held,
              total := a.total - A, locked := a.locked,
              transactions := insertTx a.transactions tid ⟨.Withdrawal, cid, tid, some A⟩,
              in_dispute := a.in_dispute } := by
          simp [stepA, Account.process_transaction, Account.withdraw, hc, hl,
            if_pos hge]
        rw [hstep]
        exact heldInv_insert a ⟨.Withdrawal, cid, tid, some A⟩ A hinv rfl hA hfresh _ _
      · simpa [stepA, Account.process_transaction, Account.withdraw, hc, hl,
          if_neg hge] using hinv
  case Dispute =>
    by_cases hmem : tid ∈ a.in_dispute
    · simpa [stepA, Account.process_transaction, Account.dispute, hc, hl, hmem]
        using hinv
    · rcases hlook : lookupTx a.transactions tid with _ | tx
      · simpa [stepA, Account.process_transaction, Account.dispute, hc, hl, hmem,
          hlook] using hinv
      · obtain ⟨hnn, hmemS, hsum⟩ := hinv
        have hamt : txAmt a.transactions tid = tx.amount.getD 0 := by
          simp [txAmt, hlook]
        cases hty : tx.tx_type
        · -- referenced record is a Deposit
          have hstep : stepA a ⟨.Dispute, cid, tid, amt⟩ =
              { a with available := a.available - tx.amount.getD 0,
                       held := a.held + tx.amount.getD 0,
                       in_dispute := tid :: a.in_dispute } := by
            simp [stepA, Account.process_transaction, Account.dispute, hc, hl,
              hmem, hlook, hty]
          rw [hstep]
          refine ⟨fun k tx' hlook' => hnn k tx' hlook', ?_, ?_⟩
          · intro tid' hmem'
            rcases List.mem_cons.mp hmem' with h' | h'
            · subst h'; simp [hlook]
            · exact hmemS tid' h'
          · simp only [heldSum, hamt, hsum]
            ring
        · -- referenced record is a Withdrawal
          have hstep : stepA a ⟨.Dispute, cid, tid, amt⟩ =
              { a with held := a.held + tx.amount.getD 0,
                       in_dispute := tid :: a.in_dispute } := by
            simp [stepA, Account.process_transaction, Account.dispute, hc, hl,
              hmem, hlook, hty]
          rw [hstep]
          refine ⟨fun k tx' hlook' => hnn k tx' hlook', ?_, ?_⟩
          · intro tid' hmem'
            rcases List.mem_cons.mp hmem' with h' | h'
            · subst h'; simp [hlook]
            · exact hmemS tid' h'
          · simp only [heldSum, hamt, hsum]
            ring
        all_goals
          simpa [stepA, Account.process_transaction, Account.dispute, hc, hl,
            hmem, hlook, hty] using ⟨hnn, hmemS, hsum⟩
  case Resolve =>
    by_cases hmem : tid ∈ a.in_dispute
    · rcases hlook : lookupTx a.transactions tid with _ | tx
      · simpa [stepA, Account.process_transaction, Account.resolve, hc, hl, hmem,
          hlook] using hinv
      · obtain ⟨hnn, hmemS, hsum⟩ := hinv
        have hamt : txAmt a.transactions tid = tx.amount.getD 0 := by
          simp [txAmt, hlook]
        have herase := heldSum_erase a.transactions a.in_dispute tid hmem
        cases hty : tx.tx_type
        · -- referenced record is a Deposit
          have hstep : stepA a ⟨.Resolve, cid, tid, amt⟩ =
              { a with available := a.available + tx.amount.getD 0,
                       held := a.held - tx.amount.getD 0,
                       in_dispute := a.in_dispute.erase tid } := by
            simp [stepA, Account.process_transaction, Account.resolve, hc, hl,
              hmem, hlook, hty]
          rw [hstep]
          refine ⟨fun k tx' hlook' => hnn k tx' hlook', ?_, ?_⟩
          · intro tid' hmem'
            exact hmemS tid' (List.mem_of_mem_erase hmem')
          · simp only [herase, hamt, hsum]
        · -- referenced record is a Withdrawal
          have hstep : stepA a ⟨.Resolve, cid, tid, amt⟩ =
              { a with held := a.held - tx.amount.getD 0,
                       in_dispute := a.in_dispute.erase tid } := by
            simp [stepA, Account.process_transaction, Account.resolve, hc, hl,
              hmem, hlook, hty]
          rw [hstep]
          refine ⟨fun k tx' hlook' => hnn k tx' hlook', ?_, ?_⟩
          · intro tid' hmem'
            exact hmemS tid' (List.mem_of_mem_erase hmem')
          · simp only [herase, hamt, hsum]
        all_goals
          simpa [stepA, Account.process_transaction, Account.resolve, hc, hl,
            hmem, hlook, hty] using ⟨hnn, hmemS, hsum⟩
    · simpa [stepA, Account.process_transaction, Account.resolve, hc, hl, hmem]
        using hinv
  case Chargeback =>
    by_cases hmem : tid ∈ a.in_dispute
    · rcases hlook : lookupTx a.transactions tid with _ | tx
      · simpa [stepA, Account.process_transaction, Account.chargeback, hc, hl, hmem,
          hlook] using hinv
      · obtain ⟨hnn, hmemS, hsum⟩ := hinv
        have hamt : txAmt a.transactions tid = tx.amount.getD 0 := by
          simp [txAmt, hlook]
        have herase := heldSum_erase a.transactions a.in_dispute tid hmem
        cases hty : tx.tx_type
        · -- referenced record is a Deposit
          have hstep : stepA a ⟨.Chargeback, cid, tid, amt⟩ =
              { a with held := a.held - tx.amount.getD 0,
                       total := a.total - tx.amount.getD 0,
                       locked := true,
                       in_dispute := a.in_dispute.erase tid } := by
            simp [stepA, Account.process_transaction, Account.chargeback, hc, hl,
              hmem, hlook, hty]
          rw [hstep]
          refine ⟨fun k tx' hlook' => hnn k tx' hlook', ?_, ?_⟩
          · intro tid' hmem'
            exact hmemS tid' (List.mem_of_mem_erase hmem')
          · simp only [herase, hamt, hsum]
        · -- referenced record is a Withdrawal
          have hstep : stepA a ⟨.Chargeback, cid, tid, amt⟩ =
              { a with available := a.available + tx.amount.getD 0,
                       held := a.held - tx.amount.getD 0,
                       locked := true,
                       in_dispute := a.in_dispute.erase tid } := by
            simp [stepA, Account.process_transaction, Account.chargeback, hc, hl,
              hmem, hlook, hty]
          rw [hstep]
          refine ⟨fun k tx' hlook' => hnn k tx' hlook', ?_, ?_⟩
          · intro tid' hmem'
            exact hmemS tid' (List.mem_of_mem_erase hmem')
          · simp only [herase, hamt, hsum]
        all_goals
          simpa [stepA, Account.process_transaction, Account.chargeback, hc, hl,
            hmem, hlook, hty] using ⟨hnn, hmemS, hsum⟩
    · simpa [stepA, Account.process_transaction, Account.chargeback, hc, hl, hmem]
        using hinv

theorem heldInv_new (c : ClientId) : HeldInv (Account.new c) := by
  refine ⟨?_, ?_, rfl⟩
  · intro k tx hlook
    simp [Account.new, lookupTx] at hlook
  · intro tid hmem
    simp [Account.new] at hmem

theorem safeSeq_heldInv (a : Account) (ts : List Transaction) (hinv : HeldInv a)
    (hsafe : SafeSeq a ts) : HeldInv (runA a ts) := by
  induction ts generalizing a with
  | nil => exact hinv
  | cons t rest ih =>
    rw [runA_cons]
    exact ih _ (heldInv_step a t hinv hsafe.1) hsafe.2

theorem safeSeq_append_left (a : Account) (xs ys : List Transaction)
    (h : SafeSeq a (xs ++ ys)) : SafeSeq a xs := by
  induction xs generalizing a with
  | nil => trivial
  | cons t rest ih => exact ⟨h.1, ih _ h.2⟩

theorem heldInv_held_nonneg (a : Account) (hinv : HeldInv a) : 0 ≤ a.held := by
  rw [hinv.2.2]
  exact heldSum_nonneg _ _ hinv.1

/-- C1: for every account and stored Withdrawal of amount A not in dispute,
a successful Dispute adds A to `held` leaving `available` and `total`
unchanged, and a subsequent successful Chargeback adds A to `available` and
subtracts A from `held` leaving `total` unchanged; consequently
`total = available + held` can fail after a withdrawal chargeback, as the
concrete deposit/withdraw/dispute/chargeback run shows. -/
theorem c1_withdrawal_dispute_chargeback :
    (∀ (a : Account) (tid : TransactionId) (tx : Transaction) (A : Money),
      lookupTx a.transactions tid = some tx →
      tx.tx_type = .Withdrawal →
      tx.amount = some A →
      tid ∉ a.in_dispute →
      (a.dispute tid).2 = none ∧
      (a.dispute tid).1.held = a.held + A ∧
      (a.dispute tid).1.available = a.available ∧
      (a.dispute tid).1.total = a.total ∧
      ((a.dispute tid).1.chargeback tid).2 = none ∧
      ((a.dispute tid).1.chargeback tid).1.available = (a.dispute tid).1.available + A ∧
      ((a.dispute tid).1.chargeback tid).1.held = (a.dispute tid).1.held - A ∧
      ((a.dispute tid).1.chargeback tid).1.total = (a.dispute tid).1.total) ∧
    ((runA (Account.new 1) [⟨.Deposit, 1, 1, some 2000⟩, ⟨.Withdrawal, 1, 2, some 1000⟩,
        ⟨.Dispute, 1, 2, none⟩, ⟨.Chargeback, 1, 2, none⟩]).total ≠
     (runA (Account.new 1) [⟨.Deposit, 1, 1, some 2000⟩, ⟨.Withdrawal, 1, 2, some 1000⟩,
        ⟨.Dispute, 1, 2, none⟩, ⟨.Chargeback, 1, 2, none⟩]).available +
     (runA (Account.new 1) [⟨.Deposit, 1, 1, some 2000⟩, ⟨.Withdrawal, 1, 2, some 1000⟩,
        ⟨.Dispute, 1, 2, none⟩, ⟨.Chargeback, 1, 2, none⟩]).held) := by
  constructor
  · intro a tid tx A hlook htype hamt hnd
    obtain ⟨ty, cid, tid2, amt⟩ := tx
    cases htype
    cases hamt
    simp [Account.dispute, Account.chargeback, hlook, hnd]
  · decide

/-- C1 witness: the dispute/chargeback effect instantiated on the account
`wAcct` holding the stored withdrawal `wTx`. -/
theorem c1_withdrawal_dispute_chargeback_witness :
    (lookupTx wAcct.transactions 2 = some wTx ∧ wTx.tx_type = .Withdrawal ∧
     wTx.amount = some 1000 ∧ 2 ∉ wAcct.in_dispute) ∧
    ((wAcct.dispute 2).2 = none ∧
     (wAcct.dispute 2).1.held = wAcct.held + 1000 ∧
     (wAcct.dispute 2).1.available = wAcct.available ∧
     (wAcct.dispute 2).1.total = wAcct.total ∧
     ((wAcct.dispute 2).1.chargeback 2).2 = none ∧
     ((wAcct.dispute 2).1.chargeback 2).1.available = (wAcct.dispute 2).1.available + 1000 ∧
     ((wAcct.dispute 2).1.chargeback 2).1.held = (wAcct.dispute 2).1.held - 1000 ∧
     ((wAcct.dispute 2).1.chargeback 2).1.total = (wAcct.dispute 2).1.total) :=
  ⟨⟨by decide, by decide, by decide, by decide⟩,
   c1_withdrawal_dispute_chargeback.1 wAcct 2 wTx 1000
     (by decide) (by decide) (by decide) (by decide)⟩

/-- C6: for every account and stored Deposit of amount A not in dispute, a
successful Dispute moves exactly A from `available` to `held` leaving
`total` unchanged, and a subsequent successful Resolve restores exactly the
pre-dispute account state. -/
theorem c6_deposit_dispute_resolve_roundtrip :
    ∀ (a : Account) (tid : TransactionId) (tx : Transaction) (A : Money),
      lookupTx a.transactions tid = some tx →
      tx.tx_type = .Deposit →
      tx.amount = some A →
      tid ∉ a.in_dispute →
      (a.dispute tid).2 = none ∧
      (a.dispute tid).1.available = a.available - A ∧
      (a.dispute tid).1.held = a.held + A ∧
      (a.dispute tid).1.total = a.total ∧
      ((a.dispute tid).1.resolve tid).2 = none ∧
      ((a.dispute tid).1.resolve tid).1 = a := by
  intro a tid tx A hlook htype hamt hnd
  obtain ⟨ty, cid, tid2, amt⟩ := tx
  cases htype
  cases hamt
  obtain ⟨c, av, hd, tot, lk, txs, dsp⟩ := a
  simp_all [Account.dispute, Account.resolve]

/-- C6 witness: the dispute/resolve round trip instantiated on the account
`dAcct` holding the stored deposit `dTx`. -/
theorem c6_deposit_dispute_resolve_roundtrip_witness :
    (lookupTx dAcct.transactions 1 = some dTx ∧ dTx.tx_type = .Deposit ∧
     dTx.amount = some 1000 ∧ 1 ∉ dAcct.in_dispute) ∧
    ((dAcct.dispute 1).2 = none ∧
     (dAcct.dispute 1).1.available = dAcct.available - 1000 ∧
     (dAcct.dispute 1).1.held = dAcct.held + 1000 ∧
     (dAcct.dispute 1).1.total = dAcct.total ∧
     ((dAcct.dispute 1).1.resolve 1).2 = none ∧
     ((dAcct.dispute 1).1.resolve 1).1 = dAcct) :=
  ⟨⟨by decide, by decide, by decide, by decide⟩,
   c6_deposit_dispute_resolve_roundtrip dAcct 1 dTx 1000
     (by decide) (by decide) (by decide) (by decide)⟩

/-- C10: for every account and stored Withdrawal of amount A not in
dispute, a successful Dispute followed by a successful Resolve of it
restores exactly the pre-dispute account state. -/
theorem c10_withdrawal_dispute_resolve_roundtrip :
    ∀ (a : Account) (tid : TransactionId) (tx : Transaction) (A : Money),
      lookupTx a.transactions tid = some tx →
      tx.tx_type = .Withdrawal →
      tx.amount = some A →
      tid ∉ a.in_dispute →
      (a.dispute tid).2 = none ∧
      ((a.dispute tid).1.resolve tid).2 = none ∧
      ((a.dispute tid).1.resolve tid).1 = a := by
  intro a tid tx A hlook htype hamt hnd
  obtain ⟨ty, cid, tid2, amt⟩ := tx
  cases htype
  cases hamt
  obtain ⟨c, av, hd, tot, lk, txs, dsp⟩ := a
  simp_all [Account.dispute, Account.resolve]

/-- C10 witness: the withdrawal dispute/resolve round trip instantiated on
`wAcct`. -/
theorem c10_withdrawal_dispute_resolve_roundtrip_witness :
    (lookupTx wAcct.transactions 2 = some wTx ∧ wTx.tx_type = .Withdrawal ∧
     wTx.amount = some 1000 ∧ 2 ∉ wAcct.in_dispute) ∧
    ((wAcct.dispute 2).2 = none ∧
     ((wAcct.dispute 2).1.resolve 2).2 = none ∧
     ((wAcct.dispute 2).1.resolve 2).1 = wAcct) :=
  ⟨⟨by decide, by decide, by decide, by decide⟩,
   c10_withdrawal_dispute_resolve_roundtrip wAcct 2 wTx 1000
     (by decide) (by decide) (by decide) (by decide)⟩

/-- C2: charging back a disputed Deposit of amount A subtracts A from both
`held` and `total` and sets `locked`; a locked account is left entirely
unchanged by any processed transaction, and every transaction addressed to
it (matching client id) fails with `AccountLocked` — so `locked` is never
reset. -/
theorem c2_deposit_chargeback_locks :
    (∀ (a : Account) (tid : TransactionId) (tx : Transaction) (A : Money),
      lookupTx a.transactions tid = some tx →
      tx.tx_type = .Deposit →
      tx.amount = some A →
      tid ∈ a.in_dispute →
      (a.chargeback tid).2 = none ∧
      (a.chargeback tid).1.held = a.held - A ∧
      (a.chargeback tid).1.total = a.total - A ∧
      (a.chargeback tid).1.locked = true) ∧
    (∀ (a : Account) (t : Transaction),
      a.locked = true → (a.process_transaction t).1 = a) ∧
    (∀ (a : Account) (t : Transaction),
      a.locked = true → t.client_id = a.client_id →
      a.process_transaction t = (a, some .AccountLocked)) := by
  refine ⟨?_, ?_, ?_⟩
  · intro a tid tx A hlook htype hamt hd
    obtain ⟨ty, cid, tid2, amt⟩ := tx
    cases htype
    cases hamt
    simp [Account.chargeback, hlook, hd]
  · intro a t hl
    by_cases hc : t.client_id = a.client_id <;>
      simp [Account.process_transaction, hc, hl]
  · intro a t hl hc
    simp [Account.process_transaction, hc, hl]

/-- C2 witness: deposit chargeback on `dAcctDisputed`, and rejection of a
deposit against the locked account `lockedAcct`. -/
theorem c2_deposit_chargeback_locks_witness :
    (lookupTx dAcctDisputed.transactions 1 = some dTx ∧ dTx.tx_type = .Deposit ∧
     dTx.amount = some 1000 ∧ 1 ∈ dAcctDisputed.in_dispute) ∧
    ((dAcctDisputed.chargeback 1).2 = none ∧
     (dAcctDisputed.chargeback 1).1.held = dAcctDisputed.held - 1000 ∧
     (dAcctDisputed.chargeback 1).1.total = dAcctDisputed.total - 1000 ∧
     (dAcctDisputed.chargeback 1).1.locked = true) ∧
    (lockedAcct.locked = true ∧ depRec.client_id = lockedAcct.client_id) ∧
    ((lockedAcct.process_transaction depRec).1 = lockedAcct ∧
     lockedAcct.process_transaction depRec = (lockedAcct, some .AccountLocked)) :=
  ⟨⟨by decide, by decide, by decide, by decide⟩,
   c2_deposit_chargeback_locks.1 dAcctDisputed 1 dTx 1000
     (by decide) (by decide) (by decide) (by decide),
   ⟨by decide, by decide⟩,
   ⟨c2_deposit_chargeback_locks.2.1 lockedAcct depRec (by decide),
    c2_deposit_chargeback_locks.2.2 lockedAcct depRec (by decide) (by decide)⟩⟩

/-- C3: whenever `Account.process_transaction` returns an error the account
is exactly unchanged, and a Withdrawal whose amount exceeds `available`
(on an unlocked account, matching client) fails with `InsufficientFunds`
leaving the account unchanged and storing nothing. -/
theorem c3_error_leaves_account_unchanged :
    (∀ (a : Account) (t : Transaction) (e : TransactionError),
      (a.process_transaction t).2 = some e → (a.process_transaction t).1 = a) ∧
    (∀ (a : Account) (t : Transaction) (A : Money),
      t.tx_type = .Withdrawal → t.amount = some A →
      t.client_id = a.client_id → a.locked = false →
      a.available < A →
      a.process_transaction t = (a, some .InsufficientFunds)) := by
  constructor
  · intro a t e h
    rcases process_transaction_cases a t with h' | h'
    · rw [h] at h'; cases h'
    · exact h'
  · intro a t A hty hamt hc hl hlt
    obtain ⟨ty, cid, tid, amt⟩ := t
    cases hty
    cases hamt
    have hge : ¬ (A ≤ a.available) := not_le.mpr hlt
    simp [Account.process_transaction, Account.withdraw, hc, hl, if_neg hge]
    exact hc

/-- C3 witness: an overdraft withdrawal against a fresh account errors with
`InsufficientFunds` and leaves the account unchanged. -/
theorem c3_error_leaves_account_unchanged_witness :
    (((Account.new 1).process_transaction ⟨.Withdrawal, 1, 1, some 5⟩).2 =
      some .InsufficientFunds ∧ (Account.new 1).available < 5 ∧
      (Account.new 1).locked = false) ∧
    ((Account.new 1).process_transaction ⟨.Withdrawal, 1, 1, some 5⟩).1 =
      Account.new 1 ∧
    (Account.new 1).process_transaction ⟨.Withdrawal, 1, 1, some 5⟩ =
      (Account.new 1, some .InsufficientFunds) :=
  ⟨⟨by decide, by decide, by decide⟩,
   c3_error_leaves_account_unchanged.1 (Account.new 1)
     ⟨.Withdrawal, 1, 1, some 5⟩ .InsufficientFunds (by decide),
   c3_error_leaves_account_unchanged.2 (Account.new 1)
     ⟨.Withdrawal, 1, 1, some 5⟩ 5 rfl rfl rfl rfl (by decide)⟩

/-- C4 counterexample: the claim says a Resolve of a transaction id that is
not a key of the transactions map fails with `TransactionDoesNotExist`, but
on a fresh (unlocked) account the code checks dispute membership first and
returns `NotInDispute`. -/
theorem c4_error_precedence_counterexample :
    Account.process_transaction (Account.new 1) ⟨.Resolve, 1, 1, none⟩ =
      (Account.new 1, some .NotInDispute) ∧
    TransactionError.NotInDispute ≠ TransactionError.TransactionDoesNotExist := by
  decide

/-- C4 amended: for every unlocked account (matching client id), a Dispute
of an id already in dispute fails `AlreadyInDispute`, a Dispute of an id
neither in dispute nor stored fails `TransactionDoesNotExist`; a Resolve or
Chargeback of an id not in dispute fails `NotInDispute` (the membership
check comes first), and of an id in dispute but not stored fails
`TransactionDoesNotExist`. -/
theorem c4_error_precedence_amended :
    ∀ (a : Account) (t : Transaction),
      t.client_id = a.client_id → a.locked = false →
      (t.tx_type = .Dispute →
        (t.transaction_id ∈ a.in_dispute →
          a.process_transaction t = (a, some .AlreadyInDispute)) ∧
        (t.transaction_id ∉ a.in_dispute →
          lookupTx a.transactions t.transaction_id = none →
          a.process_transaction t = (a, some .TransactionDoesNotExist))) ∧
      (t.tx_type = .Resolve →
        (t.transaction_id ∉ a.in_dispute →
          a.process_transaction t = (a, some .NotInDispute)) ∧
        (t.transaction_id ∈ a.in_dispute →
          lookupTx a.transactions t.transaction_id = none →
          a.process_transaction t = (a, some .TransactionDoesNotExist))) ∧
      (t.tx_type = .Chargeback →
        (t.transaction_id ∉ a.in_dispute →
          a.process_transaction t = (a, some .NotInDispute)) ∧
        (t.transaction_id ∈ a.in_dispute →
          lookupTx a.transactions t.transaction_id = none →
          a.process_transaction t = (a, some .TransactionDoesNotExist))) := by
  intro a t hc hl
  obtain ⟨ty, cid, tid, amt⟩ := t
  refine ⟨fun hty => ⟨fun hmem => ?_, fun hmem hlook => ?_⟩,
          fun hty => ⟨fun hmem => ?_, fun hmem hlook => ?_⟩,
          fun hty => ⟨fun hmem => ?_, fun hmem hlook => ?_⟩⟩ <;>
    cases hty <;>
    simp_all [Account.process_transaction, Account.dispute, Account.resolve,
      Account.chargeback]

/-- C4 amended witness: a Resolve of an unknown id on a fresh account fails
`NotInDispute`, and a Dispute of an unknown id fails
`TransactionDoesNotExist`. -/
theorem c4_error_precedence_amended_witness :
    ((Account.new 1).locked = false ∧ 7 ∉ (Account.new 1).in_dispute ∧
     lookupTx (Account.new 1).transactions 7 = none) ∧
    (Account.new 1).process_transaction ⟨.Resolve, 1, 7, none⟩ =
      (Account.new 1, some .NotInDispute) ∧
    (Account.new 1).process_transaction ⟨.Dispute, 1, 7, none⟩ =
      (Account.new 1, some .TransactionDoesNotExist) :=
  ⟨⟨by decide, by decide, by decide⟩,
   ((c4_error_precedence_amended (Account.new 1) ⟨.Resolve, 1, 7, none⟩
      rfl rfl).2.1 rfl).1 (by decide),
   ((c4_error_precedence_amended (Account.new 1) ⟨.Dispute, 1, 7, none⟩
      rfl rfl).1 rfl).2 (by decide) (by decide)⟩

/-- C7: from the fresh zero-balance account, any feed consisting only of
Deposit and Withdrawal records (whether they succeed or fail) ends in a
state with `total = available + held` and `held = 0`. -/
theorem c7_deposit_withdrawal_only_invariant :
    ∀ (c : ClientId) (ts : List Transaction),
      (∀ t ∈ ts, t.tx_type = .Deposit ∨ t.tx_type = .Withdrawal) →
      (runA (Account.new c) ts).total =
        (runA (Account.new c) ts).available + (runA (Account.new c) ts).held ∧
      (runA (Account.new c) ts).held = 0 := by
  intro c ts h
  exact runA_inv7 _ _ h (by simp [Account.new]) rfl

/-- C7 witness: the invariant instantiated on the single-deposit feed
`c5seq`. -/
theorem c7_deposit_withdrawal_only_invariant_witness :
    (∀ t ∈ c5seq, t.tx_type = .Deposit ∨ t.tx_type = .Withdrawal) ∧
    (runA (Account.new 1) c5seq).total =
      (runA (Account.new 1) c5seq).available + (runA (Account.new 1) c5seq).held ∧
    (runA (Account.new 1) c5seq).held = 0 :=
  ⟨by decide, c7_deposit_withdrawal_only_invariant 1 c5seq (by decide)⟩

/-- C8: in every account state reachable from fresh via
`process_transaction`, every disputed id is stored, every stored record is
a Deposit or Withdrawal with its amount present, and consequently the
`TransactionDoesNotExist` branch of Resolve/Chargeback for an in-dispute id
and the `InvalidTransaction` branch of Dispute/Resolve/Chargeback for a
stored record are unreachable. -/
theorem c8_reachable_account_wellformed :
    ∀ (c : ClientId) (ts : List Transaction),
      (∀ tid ∈ (runA (Account.new c) ts).in_dispute,
        (lookupTx (runA (Account.new c) ts).transactions tid).isSome) ∧
      (∀ k tx, lookupTx (runA (Account.new c) ts).transactions k = some tx →
        (tx.tx_type = .Deposit ∨ tx.tx_type = .Withdrawal) ∧ tx.amount.isSome) ∧
      (∀ tid ∈ (runA (Account.new c) ts).in_dispute,
        ((runA (Account.new c) ts).resolve tid).2 ≠ some .TransactionDoesNotExist ∧
        ((runA (Account.new c) ts).chargeback tid).2 ≠ some .TransactionDoesNotExist) ∧
      (∀ tid,
        ((runA (Account.new c) ts).dispute tid).2 ≠ some .InvalidTransaction ∧
        ((runA (Account.new c) ts).resolve tid).2 ≠ some .InvalidTransaction ∧
        ((runA (Account.new c) ts).chargeback tid).2 ≠ some .InvalidTransaction) := by
  intro c ts
  have h := runA_wf (Account.new c) ts (accountWF_new c)
  exact ⟨h.1, h.2,
    fun tid hmem => ⟨resolve_no_dne _ tid h hmem, chargeback_no_dne _ tid h hmem⟩,
    fun tid => ⟨dispute_no_invalid _ tid h, resolve_no_invalid _ tid h,
      chargeback_no_invalid _ tid h⟩⟩

/-- C8 witness: after the deposit-then-dispute feed `c8seq`, id 1 is in
dispute and its Resolve cannot report `TransactionDoesNotExist`, nor can a
Dispute of it report `InvalidTransaction`. -/
theorem c8_reachable_account_wellformed_witness :
    1 ∈ (runA (Account.new 1) c8seq).in_dispute ∧
    ((runA (Account.new 1) c8seq).resolve 1).2 ≠ some .TransactionDoesNotExist ∧
    ((runA (Account.new 1) c8seq).dispute 1).2 ≠ some .InvalidTransaction :=
  ⟨by decide,
   ((c8_reachable_account_wellformed 1 c8seq).2.2.1 1 (by decide)).1,
   ((c8_reachable_account_wellformed 1 c8seq).2.2.2 1).1⟩

/-- C9 counterexample: a record whose application returns a
`TransactionError` does not always leave the account map unchanged — a
failing dispute for an unseen client inserts a fresh zero-balance account. -/
theorem c9_error_step_counterexample :
    (State.process_transaction ⟨[]⟩ c9rec).2 = some .TransactionDoesNotExist ∧
    (State.process_transaction ⟨[]⟩ c9rec).1.accounts ≠
      ([] : List (ClientId × Account)) := by
  decide

/-- C9 amended: the run loop is exactly the left fold of the per-record
step (get-or-create the account, delegate, discard the error); an erroring
record leaves the map unchanged when the client already has an account and
otherwise only appends that client's fresh zero-balance account. -/
theorem c9_run_fold_amended :
    (∀ (s : State) (t : Transaction),
      (s.process_transaction t).2.isSome →
      ((lookupAcc s.accounts t.client_id).isSome →
        (s.process_transaction t).1.accounts = s.accounts) ∧
      (lookupAcc s.accounts t.client_id = none →
        (s.process_transaction t).1.accounts =
          s.accounts ++ [(t.client_id, Account.new t.client_id)])) ∧
    (∀ (s : State) (feed : List Transaction),
      s.run feed = feed.foldl (fun s' t => (s'.process_transaction t).1) s) := by
  constructor
  · intro s t herr
    have hfst : (((lookupAcc s.accounts t.client_id).getD
          (Account.new t.client_id)).process_transaction t).1 =
        (lookupAcc s.accounts t.client_id).getD (Account.new t.client_id) := by
      rcases process_transaction_cases
          ((lookupAcc s.accounts t.client_id).getD (Account.new t.client_id)) t with
        hnone | hsame
      · exfalso
        have : (s.process_transaction t).2 =
            (((lookupAcc s.accounts t.client_id).getD
              (Account.new t.client_id)).process_transaction t).2 := rfl
        rw [this, hnone] at herr
        simp at herr
      · exact hsame
    constructor
    · intro hsome
      rcases hs : lookupAcc s.accounts t.client_id with _ | acc
      · rw [hs] at hsome; simp at hsome
      · have : (s.process_transaction t).1.accounts =
            insertAcc s.accounts t.client_id
              (((lookupAcc s.accounts t.client_id).getD
                (Account.new t.client_id)).process_transaction t).1 := rfl
        rw [this, hfst, hs]
        exact insertAcc_lookup_some _ _ _ (by simpa using hs)
    · intro hnone
      have : (s.process_transaction t).1.accounts =
          insertAcc s.accounts t.client_id
            (((lookupAcc s.accounts t.client_id).getD
              (Account.new t.client_id)).process_transaction t).1 := rfl
      rw [this, hfst, hnone]
      exact insertAcc_lookup_none _ _ _ hnone
  · exact state_run_eq_foldl

/-- C9 amended witness: the failing dispute `c9rec` against the empty state
appends exactly the fresh account for client 1. -/
theorem c9_run_fold_amended_witness :
    ((State.process_transaction ⟨[]⟩ c9rec).2.isSome ∧
     lookupAcc ([] : List (ClientId × Account)) c9rec.client_id = none) ∧
    (State.process_transaction ⟨[]⟩ c9rec).1.accounts =
      [] ++ [(c9rec.client_id, Account.new c9rec.client_id)] :=
  ⟨⟨by decide, rfl⟩,
   (c9_run_fold_amended.1 ⟨[]⟩ c9rec (by decide)).2 rfl⟩

/-- C5 counterexample: with non-negative amounts and no Dispute referencing
a Withdrawal, `available` still goes negative (deposit disputed after its
funds were withdrawn), and `held` goes negative when a deposit id is reused
while in dispute — so the claimed non-negativity fails. -/
theorem c5_nonnegativity_counterexample :
    (runA (Account.new 1) [⟨.Deposit, 1, 1, some 100⟩, ⟨.Withdrawal, 1, 2, some 100⟩,
      ⟨.Dispute, 1, 1, none⟩]).available < 0 ∧
    (∀ t ∈ [(⟨.Deposit, 1, 1, some 100⟩ : Transaction), ⟨.Withdrawal, 1, 2, some 100⟩,
      ⟨.Dispute, 1, 1, none⟩], 0 ≤ t.amount.getD 0) ∧
    (∀ t ∈ [(⟨.Deposit, 1, 1, some 100⟩ : Transaction), ⟨.Withdrawal, 1, 2, some 100⟩,
      ⟨.Dispute, 1, 1, none⟩], t.tx_type = .Dispute →
      ∀ u ∈ [(⟨.Deposit, 1, 1, some 100⟩ : Transaction), ⟨.Withdrawal, 1, 2, some 100⟩,
        ⟨.Dispute, 1, 1, none⟩], u.tx_type = .Withdrawal →
        t.transaction_id ≠ u.transaction_id) ∧
    (runA (Account.new 1) [⟨.Deposit, 1, 1, some 100⟩, ⟨.Dispute, 1, 1, none⟩,
      ⟨.Deposit, 1, 1, some 500⟩, ⟨.Resolve, 1, 1, none⟩]).held < 0 ∧
    (∀ t ∈ [(⟨.Deposit, 1, 1, some 100⟩ : Transaction), ⟨.Dispute, 1, 1, none⟩,
      ⟨.Deposit, 1, 1, some 500⟩, ⟨.Resolve, 1, 1, none⟩], 0 ≤ t.amount.getD 0) ∧
    (∀ t ∈ [(⟨.Deposit, 1, 1, some 100⟩ : Transaction), ⟨.Dispute, 1, 1, none⟩,
      ⟨.Deposit, 1, 1, some 500⟩, ⟨.Resolve, 1, 1, none⟩],
      t.tx_type ≠ .Withdrawal) := by
  decide

/-- C5 amended: `held` stays non-negative in every intermediate and final
state of a feed whose records are benign at the moment they are processed
(non-negative amounts, no Deposit/Withdrawal reusing a stored id, no
Dispute of a stored Withdrawal); `available` is not covered, as it can go
negative even under these conditions. -/
theorem c5_held_nonneg_amended :
    ∀ (c : ClientId) (pre suf : List Transaction),
      SafeSeq (Account.new c) (pre ++ suf) →
      0 ≤ (runA (Account.new c) pre).held ∧
      0 ≤ (runA (Account.new c) (pre ++ suf)).held := by
  intro c pre suf h
  constructor
  · exact heldInv_held_nonneg _
      (safeSeq_heldInv _ _ (heldInv_new c) (safeSeq_append_left _ _ _ h))
  · exact heldInv_held_nonneg _ (safeSeq_heldInv _ _ (heldInv_new c) h)

/-- C5 amended witness: the single-deposit feed `c5seq` is safe and leaves
`held` non-negative. -/
theorem c5_held_nonneg_amended_witness :
    SafeSeq (Account.new 1) (c5seq ++ []) ∧
    0 ≤ (runA (Account.new 1) c5seq).held ∧
    0 ≤ (runA (Account.new 1) (c5seq ++ [])).held :=
  have hsafe : SafeSeq (Account.new 1) (c5seq ++ []) :=
    ⟨⟨by decide, by decide, by decide⟩, trivial⟩
  ⟨hsafe, c5_held_nonneg_amended 1 c5seq [] hsafe⟩
